import Mathlib

/-!
Verification development for the beamsplitter binding generator
(`tools/beamsplitter/java.go` and the JavaScript/TypeScript generator file).

The Go sources are shallowly embedded: Go (byte) strings are modelled as
`List Char` (all inputs of interest are ASCII, one `Char` per byte), the
standard-library string helpers (`strings.Count`, `strings.Replace`,
`strings.ReplaceAll`, `strings.HasPrefix`, `strings.Contains`) are
reimplemented with their documented leftmost/non-overlapping semantics,
and `bufio.Scanner` line splitting follows `bufio.ScanLines` (split at
`'\n'`, drop one trailing `'\r'` from each token, emit a final unterminated
token only when nonempty).  The template-rendering engine is out of scope
for the sources (an opaque "execute named template section against a
definition" service), so it is passed in as a function parameter.
-/

/-- Modelled from the spec: a struct field (the `Field` record of the Type
Model is defined outside the given source files; named `StructField` here
to avoid clashing with Mathlib's `Field`). Name, a possibly
namespace-qualified native type, and an optional normalized default
literal. -/
structure StructField where
  name : String
  nativeType : String
  defaultValue : Option String
deriving DecidableEq, Repr

/-- Modelled from the spec: a struct Definition (defined outside the given
source files): qualified name, doc string, ordered field list. -/
structure StructDefinition where
  qualifiedName : String
  description : String
  fields : List StructField
deriving DecidableEq, Repr

/-- Modelled from the spec: one enumerator of an enum Definition. -/
structure Enumerator where
  name : String
  value : Int
deriving DecidableEq, Repr

/-- Modelled from the spec: an enum Definition (defined outside the given
source files): qualified name, doc string, ordered enumerator list. -/
structure EnumDefinition where
  qualifiedName : String
  description : String
  enumerators : List Enumerator
deriving DecidableEq, Repr

/-- Modelled from the spec: the polymorphic `TypeDefinition` interface of
the Type Model, a closed sum over the Struct and Enum variants (the Go
side implements it as an interface with the two concrete types; the code
under `src/` only ever switches on those two variants). -/
inductive TypeDefinition where
  | structDef : StructDefinition → TypeDefinition
  | enumDef : EnumDefinition → TypeDefinition
deriving DecidableEq, Repr

/-- Whether a definition is the Struct variant (the `case *StructDefinition`
arm of the Go type switches). -/
def TypeDefinition.isStruct : TypeDefinition → Bool
  | .structDef _ => true
  | .enumDef _ => false

/-- Whether a definition is the Enum variant (the `case *EnumDefinition`
arm of the Go type switches). -/
def TypeDefinition.isEnum : TypeDefinition → Bool
  | .structDef _ => false
  | .enumDef _ => true

/-! ## Go string primitives on `List Char` -/

/-- `strings.HasPrefix(s, pre)` on char lists. -/
def goStartsWith : List Char → List Char → Bool
  | _, [] => true
  | [], _ :: _ => false
  | c :: s, p :: ps => c = p && goStartsWith s ps

/-- `strings.Contains(s, sub)` on char lists: `sub` occurs as a contiguous
substring of `s`. -/
def goContains : List Char → List Char → Bool
  | [], sub => sub.isEmpty
  | c :: s, sub => goStartsWith (c :: s) sub || goContains s sub

/-- `strings.Count(name, "::")`: number of non-overlapping occurrences of
the scoping delimiter `"::"`, counted left to right. -/
def countColons : List Char → Nat
  | [] => 0
  | [_] => 0
  | c1 :: c2 :: rest =>
    if c1 = ':' ∧ c2 = ':' then countColons rest + 1
    else countColons (c2 :: rest)

/-- `strings.Replace(s, "::", new, n)` on char lists: replace the first `n`
non-overlapping occurrences of `"::"` (left to right) by `newRepl`; a
negative `n` means no limit, `n = 0` means no replacement, exactly as
documented for Go's `strings.Replace`. -/
def goReplaceColons (newRepl : List Char) : Int → List Char → List Char
  | _, [] => []
  | _, [c] => [c]
  | n, c1 :: c2 :: rest =>
    if n = 0 then c1 :: c2 :: rest
    else if c1 = ':' ∧ c2 = ':' then newRepl ++ goReplaceColons newRepl (n - 1) rest
    else c1 :: goReplaceColons newRepl n (c2 :: rest)

/-! ## The Name Translator (template function map of `createJsCodeGenerator`) -/

/-- The scripting-scope prefixing string derived once per run in
`createJsCodeGenerator`: `namespace + "$"` when the namespace is nonempty,
empty otherwise (the variable `jsPrefix` of the source). -/
def jsPre (ns : String) : String :=
  if ns = "" then "" else ns ++ "$"

/-- The `"qualifiedtype"` template extension: `strings.ReplaceAll(typename,
"::", "$")`, i.e. `strings.Replace` with no limit. -/
def qualifiedtype (typename : String) : String :=
  ⟨goReplaceColons ['$'] (-1) typename.data⟩

/-- The `"qualifiedvalue"` template extension, translated statement by
statement: count the delimiter occurrences in the incoming name; when
positive, prepend `"Filament."` and the scripting-scope prefixing string;
then replace the first `count - 1` occurrences by `"$"` and one further
occurrence by `"."`.  The count is taken on the original name but the
replacements run on the prefixed name, exactly as in the source. -/
def qualifiedvalue (p : String) (name : String) : String :=
  let count := countColons name.data
  let name1 := if count > 0 then "Filament." ++ p ++ name else name
  let name2 := goReplaceColons ['$'] ((count : Int) - 1) name1.data
  let name3 := goReplaceColons ['.'] 1 name2
  ⟨name3⟩

/-- The `"tstype"` template extension: strip a leading `"math::"`; map the
fixed primitive spellings; otherwise fall back to the scripting-scope
prefixing string plus the fully flattened name. -/
def tstype (p : String) (cpptype : String) : String :=
  if goStartsWith cpptype.data "math::".data then ⟨cpptype.data.drop 6⟩
  else if cpptype = "float" ∨ cpptype = "uint8_t" ∨ cpptype = "uint32_t"
      ∨ cpptype = "uint16_t" then "number"
  else if cpptype = "bool" then "boolean"
  else if cpptype = "LinearColorA" then "float4"
  else if cpptype = "LinearColor" then "float3"
  else p ++ ⟨goReplaceColons ['$'] (-1) cpptype.data⟩

/-- Specification-side description of the claimed `qualifiedvalue`
delimiter handling: walking the name left to right, the `i`-th delimiter
occurrence (1-based) becomes the flat-scope character `'$'` while `i < k`,
and becomes the member-access character `'.'` from the `k`-th on (for a
name with exactly `k` occurrences, that is: the first `k - 1` become `'$'`
and the final one becomes `'.'`). -/
def replaceKth (k : Nat) : Nat → List Char → List Char
  | _, [] => []
  | _, [c] => [c]
  | i, c1 :: c2 :: rest =>
    if c1 = ':' ∧ c2 = ':' then
      (if i < k then '$' else '.') :: replaceKth k (i + 1) rest
    else c1 :: replaceKth k i (c2 :: rest)

/-- Specification-side inverse of delimiter flattening: rewrite every
`'$'` back into `"::"`.  Used to show flattening is injective on
`'$'`-free qualified names. -/
def unflatten : List Char → List Char
  | [] => []
  | c :: rest => if c = '$' then ':' :: ':' :: unflatten rest else c :: unflatten rest

/-! ## Section dispatch (the generator closures) -/

/-- One invocation of the template engine: which template section id is
executed, against which definition context (`nil` for headers/footers). -/
structure RenderCall where
  templateId : String
  definition : Option TypeDefinition
deriving DecidableEq, Repr

/-- The closure returned by `createJsCodeGenerator`: it executes precisely
the template section it is invoked with (`templ.ExecuteTemplate(file,
section, definition)`). -/
def createJsCodeGenerator (sectionId : String) (d : Option TypeDefinition) : RenderCall :=
  { templateId := sectionId, definition := d }

/-- The closure returned by `createJavaCodeGenerator`: the source executes
`templ.ExecuteTemplate(file, "CppStructReader", definition)`, dropping the
`section` argument it was invoked with. -/
def createJavaCodeGenerator (sectionId : String) (d : Option TypeDefinition) : RenderCall :=
  { templateId := "CppStructReader", definition := d }

/-- The per-definition loop of `EditJava`: Struct definitions invoke the
generator with section id `"Struct"`, Enum definitions with `"Enum"`. -/
def editJavaCalls : List TypeDefinition → List RenderCall
  | [] => []
  | d :: rest =>
    match d with
    | .structDef _ => createJavaCodeGenerator "Struct" (some d) :: editJavaCalls rest
    | .enumDef _ => createJavaCodeGenerator "Enum" (some d) :: editJavaCalls rest

/-- The per-definition loop of `EditTypeScript`: Struct definitions invoke
the generator with section id `"TsStruct"`, Enum definitions with
`"TsEnum"`. -/
def editTsCalls : List TypeDefinition → List RenderCall
  | [] => []
  | d :: rest =>
    match d with
    | .structDef _ => createJsCodeGenerator "TsStruct" (some d) :: editTsCalls rest
    | .enumDef _ => createJsCodeGenerator "TsEnum" (some d) :: editTsCalls rest

/-- Body loop of the `jsbindings_generated.cpp` block of `EmitJavaScript`:
only Struct definitions are rendered, with section `"JsBindingsStruct"`. -/
def jsBindingsBody : List TypeDefinition → List RenderCall
  | [] => []
  | d :: rest =>
    match d with
    | .structDef _ => createJsCodeGenerator "JsBindingsStruct" (some d) :: jsBindingsBody rest
    | .enumDef _ => jsBindingsBody rest

/-- Body loop of the `jsenums_generated.cpp` block of `EmitJavaScript`:
only Enum definitions are rendered, with section `"JsEnum"`. -/
def jsEnumsBody : List TypeDefinition → List RenderCall
  | [] => []
  | d :: rest =>
    match d with
    | .structDef _ => jsEnumsBody rest
    | .enumDef _ => createJsCodeGenerator "JsEnum" (some d) :: jsEnumsBody rest

/-- Body loop of the `extensions_generated.js` block of `EmitJavaScript`:
only Struct definitions are rendered, with section `"JsExtension"`. -/
def jsExtensionsBody : List TypeDefinition → List RenderCall
  | [] => []
  | d :: rest =>
    match d with
    | .structDef _ => createJsCodeGenerator "JsExtension" (some d) :: jsExtensionsBody rest
    | .enumDef _ => jsExtensionsBody rest

/-- The render-call sequence `EmitJavaScript` issues against the
struct-binding artifact `jsbindings_generated.cpp`: header section, the
per-definition loop in Type-Model order, footer section. -/
def emitJsBindings (defs : List TypeDefinition) : List RenderCall :=
  createJsCodeGenerator "JsBindingsHeader" none
    :: jsBindingsBody defs
    ++ [createJsCodeGenerator "JsBindingsFooter" none]

/-- The render-call sequence `EmitJavaScript` issues against the
enum-binding artifact `jsenums_generated.cpp`. -/
def emitJsEnums (defs : List TypeDefinition) : List RenderCall :=
  createJsCodeGenerator "JsEnumsHeader" none
    :: jsEnumsBody defs
    ++ [createJsCodeGenerator "JsEnumsFooter" none]

/-- The render-call sequence `EmitJavaScript` issues against the
scripting-side extensions artifact `extensions_generated.js`. -/
def emitJsExtensions (defs : List TypeDefinition) : List RenderCall :=
  createJsCodeGenerator "JsExtensionsHeader" none
    :: jsExtensionsBody defs
    ++ [createJsCodeGenerator "JsExtensionsFooter" none]

/-- The enum Definition `pkg::Bar { A = 0, B = 1 }` from the spec's
end-to-end scenario. -/
def exBarEnum : EnumDefinition :=
  { qualifiedName := "pkg::Bar", description := "", enumerators := [⟨"A", 0⟩, ⟨"B", 1⟩] }

/-- The struct Definition `pkg::Foo { x : float }` from the spec's
end-to-end scenario. -/
def exFooStruct : StructDefinition :=
  { qualifiedName := "pkg::Foo", description := "", fields := [⟨"x", "float", none⟩] }

/-! ## The File Patcher (`EditTypeScript` / `EditJava`) -/

/-- `bufio.ScanLines`' `dropCR`: remove one trailing `'\r'` from a scanned
token, if present. -/
def dropCR (l : List Char) : List Char :=
  if l.getLast? = some '\r' then l.dropLast else l

/-- The token loop of a `bufio.Scanner` with the default `ScanLines` split
function: `acc` is the token accumulated so far.  A `'\n'` terminates the
current token (with `dropCR` applied); at end of input the remaining data
forms a final token; no empty token is produced after a terminating
`'\n'` at end of input. -/
def scanLinesAux : List Char → List Char → List (List Char)
  | acc, [] => [dropCR acc]
  | acc, c :: rest =>
    if c = '\n' then
      dropCR acc :: (if rest.isEmpty then [] else scanLinesAux [] rest)
    else
      scanLinesAux (acc ++ [c]) rest

/-- The full line sequence a `bufio.Scanner` yields on `s` (empty input
yields no lines). -/
def scanLines (s : List Char) : List (List Char) :=
  if s.isEmpty then [] else scanLinesAux [] s

/-- The marker-scanning loop shared by `EditTypeScript` and `EditJava`:
buffer lines into `codelines` until one contains the marker substring
(then stop, reporting success) or input ends (reporting failure). -/
def collectCodelines (marker : List Char) : List (List Char) → List (List Char) × Bool
  | [] => ([], false)
  | l :: rest =>
    if goContains l marker then ([], true)
    else
      let (cs, found) := collectCodelines marker rest
      (l :: cs, found)

/-- `'\n'`-join as written by the patchers: every preserved codeline is
written back followed by a single `'\n'`. -/
def joinLF (lines : List (List Char)) : List Char :=
  (lines.map (· ++ ['\n'])).flatten

/-- The bytes the per-definition loop of `EditTypeScript` appends: each
render call's section executed against its definition by the opaque
template engine `render`. -/
def tsGenerated (render : String → Option TypeDefinition → List Char)
    (defs : List TypeDefinition) : List Char :=
  ((editTsCalls defs).map (fun c => render c.templateId c.definition)).flatten

/-- The bytes the per-definition loop of `EditJava` appends (note every
call executes `"CppStructReader"`, per `createJavaCodeGenerator`). -/
def javaGenerated (render : String → Option TypeDefinition → List Char)
    (defs : List TypeDefinition) : List Char :=
  ((editJavaCalls defs).map (fun c => render c.templateId c.definition)).flatten

/-- `EditTypeScript`, as a transformation of the pre-existing file's bytes
(`content`): scan lines up to the first one containing `marker`; if none
contains it, the run aborts fatally (`Except.error`, raised in the source
by `log.Fatal` *before* `os.Create` truncates the file, so the file is
left untouched); otherwise the file is rewritten as the preserved lines
(each with a restored `'\n'`), a fresh `"// " + marker` line, and the
freshly rendered per-definition sections. -/
def EditTypeScript (render : String → Option TypeDefinition → List Char)
    (marker : List Char) (defs : List TypeDefinition) (content : List Char) :
    Except String (List Char) :=
  let scanned := collectCodelines marker (scanLines content)
  if scanned.2 then
    .ok (joinLF scanned.1 ++ "// ".data ++ marker ++ ['\n'] ++ tsGenerated render defs)
  else
    .error "Unable to find marker line in TypeScript file."

/-- `EditJava`, as a transformation of the pre-existing file's bytes: same
scanning as `EditTypeScript`; on success the rewritten file is the
preserved lines, a fresh `"    // " + marker` line, the rendered
per-definition sections, and the closing `"}\n"`. -/
def EditJava (render : String → Option TypeDefinition → List Char)
    (marker : List Char) (defs : List TypeDefinition) (content : List Char) :
    Except String (List Char) :=
  let scanned := collectCodelines marker (scanLines content)
  if scanned.2 then
    .ok (joinLF scanned.1 ++ "    // ".data ++ marker ++ ['\n']
      ++ javaGenerated render defs ++ "\x7d\n".data)
  else
    .error "Unable to find marker line in Java file."

/-! ## Lemmas: Go string primitives -/

lemma goReplaceColons_zero (nr : List Char) (s : List Char) :
    goReplaceColons nr 0 s = s := by
  match s with
  | [] => rfl
  | [c] => rfl
  | c1 :: c2 :: rest => simp [goReplaceColons]

lemma goReplaceColons_two (nr : List Char) (n : Int) (c1 c2 : Char) (rest : List Char)
    (h : ¬(c1 = ':' ∧ c2 = ':')) :
    goReplaceColons nr n (c1 :: c2 :: rest) = c1 :: goReplaceColons nr n (c2 :: rest) := by
  by_cases hn : n = 0
  · subst hn; rw [goReplaceColons_zero, goReplaceColons_zero]
  · simp [goReplaceColons, hn, h]

lemma goReplaceColons_cons (nr : List Char) (n : Int) (c : Char) (t : List Char)
    (hc : c ≠ ':') :
    goReplaceColons nr n (c :: t) = c :: goReplaceColons nr n t := by
  match t with
  | [] => rfl
  | c2 :: t' => exact goReplaceColons_two nr n c c2 t' (fun hh => hc hh.1)

lemma goReplaceColons_colons (nr : List Char) (n : Int) (rest : List Char) (hn : n ≠ 0) :
    goReplaceColons nr n (':' :: ':' :: rest) = nr ++ goReplaceColons nr (n - 1) rest := by
  simp [goReplaceColons, hn]

lemma countColons_two (c1 c2 : Char) (rest : List Char) (h : ¬(c1 = ':' ∧ c2 = ':')) :
    countColons (c1 :: c2 :: rest) = countColons (c2 :: rest) := by
  simp [countColons, h]

lemma countColons_cons (c : Char) (t : List Char) (hc : c ≠ ':') :
    countColons (c :: t) = countColons t := by
  match t with
  | [] => simp [countColons]
  | c2 :: t' => exact countColons_two c c2 t' (fun hh => hc hh.1)

lemma countColons_colons (rest : List Char) :
    countColons (':' :: ':' :: rest) = countColons rest + 1 := by
  simp [countColons]

lemma goReplaceColons_of_countColons_zero (nr : List Char) (n : Int) (s : List Char)
    (h : countColons s = 0) : goReplaceColons nr n s = s := by
  induction s using countColons.induct with
  | case1 => rfl
  | case2 c => rfl
  | case3 c1 c2 rest hc ih =>
    obtain ⟨h1, h2⟩ := hc
    subst h1; subst h2
    rw [countColons_colons] at h
    exact absurd h (Nat.succ_ne_zero _)
  | case4 c1 c2 rest hc ih =>
    rw [countColons_two c1 c2 rest hc] at h
    rw [goReplaceColons_two nr n c1 c2 rest hc, ih h]

lemma replaceKth_two (k i : Nat) (c1 c2 : Char) (rest : List Char)
    (h : ¬(c1 = ':' ∧ c2 = ':')) :
    replaceKth k i (c1 :: c2 :: rest) = c1 :: replaceKth k i (c2 :: rest) := by
  simp [replaceKth, h]

lemma replaceKth_colons (k i : Nat) (rest : List Char) :
    replaceKth k i (':' :: ':' :: rest) =
      (if i < k then '$' else '.') :: replaceKth k (i + 1) rest := by
  simp [replaceKth]

lemma replaceKth_of_countColons_zero (k i : Nat) (s : List Char)
    (h : countColons s = 0) : replaceKth k i s = s := by
  induction s using countColons.induct with
  | case1 => rfl
  | case2 c => rfl
  | case3 c1 c2 rest hc ih =>
    obtain ⟨h1, h2⟩ := hc
    subst h1; subst h2
    rw [countColons_colons] at h
    exact absurd h (Nat.succ_ne_zero _)
  | case4 c1 c2 rest hc ih =>
    rw [countColons_two c1 c2 rest hc] at h
    rw [replaceKth_two k i c1 c2 rest hc, ih h]

lemma replaceKth_shift (s : List Char) : ∀ k i : Nat,
    replaceKth (k + 1) (i + 1) s = replaceKth k i s := by
  induction s using countColons.induct with
  | case1 => intro k i; rfl
  | case2 c => intro k i; rfl
  | case3 c1 c2 rest hc ih =>
    intro k i
    obtain ⟨h1, h2⟩ := hc
    subst h1; subst h2
    rw [replaceKth_colons, replaceKth_colons, ih k (i + 1)]
    simp [Nat.add_lt_add_iff_right]
  | case4 c1 c2 rest hc ih =>
    intro k i
    rw [replaceKth_two _ _ c1 c2 rest hc, replaceKth_two _ _ c1 c2 rest hc, ih]

lemma countColons_append_no_colon (a b : List Char) (ha : ':' ∉ a) :
    countColons (a ++ b) = countColons b := by
  induction a with
  | nil => rfl
  | cons c a ih =>
    have hc : c ≠ ':' := fun h => ha (h ▸ List.mem_cons_self c a)
    have ha' : ':' ∉ a := fun h => ha (List.mem_cons_of_mem c h)
    rw [List.cons_append, countColons_cons c (a ++ b) hc, ih ha']

lemma goReplaceColons_append_no_colon (nr : List Char) (n : Int) (a b : List Char)
    (ha : ':' ∉ a) :
    goReplaceColons nr n (a ++ b) = a ++ goReplaceColons nr n b := by
  induction a with
  | nil => rfl
  | cons c a ih =>
    have hc : c ≠ ':' := fun h => ha (h ▸ List.mem_cons_self c a)
    have ha' : ':' ∉ a := fun h => ha (List.mem_cons_of_mem c h)
    rw [List.cons_append, goReplaceColons_cons nr n c (a ++ b) hc, ih ha']
    rfl

lemma twoPhase (s : List Char) : ∀ j : Nat, countColons s = j →
    goReplaceColons ['.'] 1 (goReplaceColons ['$'] ((j : Int) - 1) s) = replaceKth j 1 s := by
  induction s using countColons.induct with
  | case1 => intro j hj; rfl
  | case2 c => intro j hj; rfl
  | case3 c1 c2 rest hc ih =>
    obtain ⟨h1, h2⟩ := hc
    subst h1; subst h2
    intro j hj
    rw [countColons_colons] at hj
    by_cases hm : countColons rest = 0
    · -- exactly one occurrence: j = 1
      have hj1 : j = 1 := by omega
      subst hj1
      rw [show ((1 : Nat) : Int) - 1 = 0 by norm_num, goReplaceColons_zero,
        goReplaceColons_colons _ 1 rest one_ne_zero,
        show (1 : Int) - 1 = 0 by norm_num,
        goReplaceColons_zero, replaceKth_colons]
      simp [replaceKth_of_countColons_zero 1 2 rest hm]
    · -- at least two occurrences
      have hgt : 1 < j := by omega
      have hm' : countColons rest = j - 1 := by omega
      have hne : ((j : Int) - 1) ≠ 0 := by omega
      rw [goReplaceColons_colons _ _ rest hne]
      have hhead : goReplaceColons ['.'] 1
          ('$' :: goReplaceColons ['$'] ((j : Int) - 1 - 1) rest) =
          '$' :: goReplaceColons ['.'] 1 (goReplaceColons ['$'] ((j : Int) - 1 - 1) rest) :=
        goReplaceColons_cons ['.'] 1 '$' _ (by decide)
      rw [List.singleton_append, hhead]
      have harg : ((j : Int) - 1 - 1) = (((j - 1 : Nat) : Int) - 1) := by omega
      rw [harg, ih (j - 1) hm', replaceKth_colons]
      have hone : 1 < j := hgt
      rw [if_pos hone]
      have : replaceKth j 2 rest = replaceKth (j - 1) 1 rest := by
        have hj2 : j = (j - 1) + 1 := by omega
        calc replaceKth j 2 rest = replaceKth ((j - 1) + 1) (1 + 1) rest := by rw [← hj2]
        _ = replaceKth (j - 1) 1 rest := replaceKth_shift rest (j - 1) 1
      rw [this]
  | case4 c1 c2 rest hc ih =>
    intro j hj
    rw [countColons_two c1 c2 rest hc] at hj
    rw [goReplaceColons_two _ _ c1 c2 rest hc]
    by_cases hc1 : c1 = ':'
    · -- then c2 is not a colon; the inner result still starts with c2
      have hc2 : c2 ≠ ':' := fun h => hc ⟨hc1, h⟩
      have hx : goReplaceColons ['$'] ((j : Int) - 1) (c2 :: rest) =
          c2 :: goReplaceColons ['$'] ((j : Int) - 1) rest :=
        goReplaceColons_cons _ _ c2 rest hc2
      rw [hx, goReplaceColons_two ['.'] 1 c1 c2 _ hc, ← hx, ih j hj,
        replaceKth_two j 1 c1 c2 rest hc]
    · rw [goReplaceColons_cons ['.'] 1 c1 _ hc1, ih j hj,
        replaceKth_two j 1 c1 c2 rest hc]

lemma goStartsWith_iff (pre : List Char) : ∀ s : List Char,
    goStartsWith s pre = true ↔ ∃ t, s = pre ++ t := by
  induction pre with
  | nil => intro s; simp [goStartsWith]
  | cons p ps ih =>
    intro s
    match s with
    | [] =>
      simp [goStartsWith]
    | c :: s' =>
      simp only [goStartsWith, Bool.and_eq_true, decide_eq_true_eq, ih s', List.cons_append]
      constructor
      · rintro ⟨h1, t, h2⟩
        exact ⟨t, by rw [h1, h2]⟩
      · rintro ⟨t, h⟩
        obtain ⟨h1, h2⟩ := List.cons.injEq .. ▸ h
        exact ⟨h1, t, h2⟩

lemma goContains_append (pre sub post : List Char) :
    goContains (pre ++ (sub ++ post)) sub = true := by
  induction pre with
  | nil =>
    match h : sub ++ post with
    | [] =>
      have : sub = [] := (List.append_eq_nil.mp h).1
      simp [goContains, this]
    | c :: t =>
      rw [goContains, Bool.or_eq_true]
      left
      rw [goStartsWith_iff]
      exact ⟨post, h.symm⟩
  | cons c pre ih =>
    rw [List.cons_append, goContains, Bool.or_eq_true]
    right
    exact ih

lemma goContains_no_double_colon (s : List Char) : ∀ n : Int, n < 0 →
    goContains (goReplaceColons ['$'] n s) [':', ':'] = false := by
  induction s using countColons.induct with
  | case1 => intro n hn; rfl
  | case2 c =>
    intro n hn
    show goContains [c] [':', ':'] = false
    simp [goContains, goStartsWith]
  | case3 c1 c2 rest hc ih =>
    obtain ⟨h1, h2⟩ := hc
    subst h1; subst h2
    intro n hn
    rw [goReplaceColons_colons _ n rest (by omega), List.singleton_append]
    have ihn := ih (n - 1) (by omega)
    simp [goContains, goStartsWith, ihn]
  | case4 c1 c2 rest hc ih =>
    intro n hn
    rw [goReplaceColons_two _ n c1 c2 rest hc]
    have ihn := ih n hn
    by_cases hc1 : c1 = ':'
    · have hc2 : c2 ≠ ':' := fun h => hc ⟨hc1, h⟩
      have hx : goReplaceColons ['$'] n (c2 :: rest) =
          c2 :: goReplaceColons ['$'] n rest := goReplaceColons_cons _ n c2 rest hc2
      rw [goContains, Bool.or_eq_false_iff]
      refine ⟨?_, ihn⟩
      rw [hx]
      simp [goStartsWith, hc2]
    · rw [goContains, Bool.or_eq_false_iff]
      refine ⟨?_, ihn⟩
      simp [goStartsWith, hc1]

lemma unflatten_goReplaceColons (s : List Char) : ∀ n : Int, n < 0 → '$' ∉ s →
    unflatten (goReplaceColons ['$'] n s) = s := by
  induction s using countColons.induct with
  | case1 => intro n hn hs; rfl
  | case2 c =>
    intro n hn hs
    have : c ≠ '$' := fun h => hs (h ▸ List.mem_singleton_self c)
    show unflatten [c] = [c]
    simp [unflatten, this]
  | case3 c1 c2 rest hc ih =>
    obtain ⟨h1, h2⟩ := hc
    subst h1; subst h2
    intro n hn hs
    have hs' : '$' ∉ rest := fun h => hs (by simp [h])
    rw [goReplaceColons_colons _ n rest (by omega), List.singleton_append]
    simp [unflatten, ih (n - 1) (by omega) hs']
  | case4 c1 c2 rest hc ih =>
    intro n hn hs
    have hc1 : c1 ≠ '$' := fun h => hs (by simp [h])
    have hs' : '$' ∉ c2 :: rest := fun h => hs (by simp [List.mem_cons] at h ⊢; tauto)
    rw [goReplaceColons_two _ n c1 c2 rest hc, unflatten, if_neg hc1, ih n hn hs']

lemma qualifiedvalue_def (p name : String) :
    qualifiedvalue p name =
      ⟨goReplaceColons ['.'] 1 (goReplaceColons ['$'] ((countColons name.data : Int) - 1)
        (if countColons name.data > 0 then "Filament." ++ p ++ name else name).data)⟩ := rfl

/-- Claim C5: for every qualified enumerator name with exactly `k ≥ 1`
occurrences of the delimiter `"::"`, and a colon-free scripting-scope
prefixing string, `qualifiedvalue` returns the name prefixed by the fixed
root identifier `"Filament."` plus the scripting-scope prefixing string,
with the first `k - 1` delimiter occurrences replaced left-to-right by
`'$'` and the final occurrence by `'.'` (`replaceKth k 1` is the
specification-side transcription of that replacement policy). -/
theorem qualifiedvalue_qualified (p name : String) (k : Nat)
    (hp : ':' ∉ p.data) (hk : countColons name.data = k) (hk1 : 1 ≤ k) :
    qualifiedvalue p name = "Filament." ++ p ++ ⟨replaceKth k 1 name.data⟩ := by
  rw [qualifiedvalue_def, hk, if_pos (by omega : k > 0)]
  have ha : ':' ∉ ("Filament.".data ++ p.data) := by
    intro hmem
    rcases List.mem_append.mp hmem with h | h
    · revert h; decide
    · exact hp h
  have hsplit : ("Filament." ++ p ++ name).data =
      ("Filament.".data ++ p.data) ++ name.data := by
    rw [String.data_append, String.data_append]
  rw [hsplit, goReplaceColons_append_no_colon _ _ _ _ ha,
    goReplaceColons_append_no_colon _ _ _ _ ha, twoPhase name.data k hk]
  rfl

/-- Witness for `qualifiedvalue_qualified`: the scenario of the claim,
`"pkg::Bar::A"` with `k = 2` and namespace `"filament"`, evaluating to
`"Filament.filament$pkg$Bar.A"`. -/
theorem qualifiedvalue_qualified_witness :
    (':' ∉ (jsPre "filament").data ∧ countColons "pkg::Bar::A".data = 2 ∧ 1 ≤ 2)
    ∧ qualifiedvalue (jsPre "filament") "pkg::Bar::A" =
        "Filament." ++ jsPre "filament" ++ ⟨replaceKth 2 1 "pkg::Bar::A".data⟩
    ∧ "Filament." ++ jsPre "filament" ++ (⟨replaceKth 2 1 "pkg::Bar::A".data⟩ : String) =
        "Filament.filament$pkg$Bar.A" :=
  ⟨⟨by decide, by decide, by decide⟩,
    qualifiedvalue_qualified (jsPre "filament") "pkg::Bar::A" 2
      (by decide) (by decide) (by decide),
    by decide⟩

/-- Claim C9: an unqualified name (zero delimiter occurrences) passes
through `qualifiedvalue` unmodified: no root identifier or scripting-scope
prefixing string is prepended and no character is replaced. -/
theorem qualifiedvalue_unqualified (p name : String)
    (h : countColons name.data = 0) : qualifiedvalue p name = name := by
  rw [qualifiedvalue_def, h, if_neg (by omega : ¬ (0 : Nat) > 0),
    goReplaceColons_of_countColons_zero _ _ _ h,
    goReplaceColons_of_countColons_zero _ _ _ h]

/-- Witness for `qualifiedvalue_unqualified`: the unqualified enumerator
name `"A"` is returned unchanged even with a nonempty namespace. -/
theorem qualifiedvalue_unqualified_witness :
    countColons "A".data = 0 ∧ qualifiedvalue (jsPre "filament") "A" = "A" :=
  ⟨by decide, qualifiedvalue_unqualified (jsPre "filament") "A" (by decide)⟩

/-- Claim C6: `tstype` (the `scalarTypeName` transform) is total (a Lean
function) and its fixed table takes priority over the generic rule: every
input starting with `"math::"` is returned with that 6-character lead
stripped; the four numeric spellings map to `"number"`, `"bool"` to
`"boolean"`, the two color aggregates to `"float4"`/`"float3"`; every
other input maps to the scripting-scope prefixing string followed by the
input with every `"::"` replaced by `"$"` (the `qualifiedtype`
flattening). -/
theorem tstype_spec (p s : String) :
    ((∃ t, s.data = "math::".data ++ t) → tstype p s = ⟨s.data.drop 6⟩)
    ∧ tstype p "float" = "number"
    ∧ tstype p "uint8_t" = "number"
    ∧ tstype p "uint32_t" = "number"
    ∧ tstype p "uint16_t" = "number"
    ∧ tstype p "bool" = "boolean"
    ∧ tstype p "LinearColorA" = "float4"
    ∧ tstype p "LinearColor" = "float3"
    ∧ ((¬ ∃ t, s.data = "math::".data ++ t) → s ≠ "float" → s ≠ "uint8_t" →
        s ≠ "uint32_t" → s ≠ "uint16_t" → s ≠ "bool" → s ≠ "LinearColorA" →
        s ≠ "LinearColor" → tstype p s = p ++ qualifiedtype s) := by
  refine ⟨?_, rfl, rfl, rfl, rfl, rfl, rfl, rfl, ?_⟩
  · rintro ⟨t, ht⟩
    have hpre : goStartsWith s.data "math::".data = true :=
      (goStartsWith_iff _ _).mpr ⟨t, ht⟩
    unfold tstype
    rw [if_pos hpre]
  · rintro hno h1 h2 h3 h4 h5 h6 h7
    have hpre : ¬ goStartsWith s.data "math::".data = true := by
      rw [goStartsWith_iff]; exact hno
    unfold tstype
    rw [if_neg hpre, if_neg (by tauto), if_neg h5, if_neg h6, if_neg h7]
    rfl

/-- Witness for `tstype_spec`: the math-namespace rule at
`"math::float3"`, a table entry, and the generic fallback at
`"pkg::Foo"`. -/
theorem tstype_spec_witness :
    tstype (jsPre "ns") "math::float3" = ⟨"math::float3".data.drop 6⟩
    ∧ tstype (jsPre "ns") "float" = "number"
    ∧ tstype (jsPre "ns") "pkg::Foo" = jsPre "ns" ++ qualifiedtype "pkg::Foo" :=
  ⟨(tstype_spec (jsPre "ns") "math::float3").1 ⟨"float3".data, by decide⟩,
    (tstype_spec (jsPre "ns") "float").2.1,
    (tstype_spec (jsPre "ns") "pkg::Foo").2.2.2.2.2.2.2.2
      (fun hex => absurd ((goStartsWith_iff _ _).mpr hex) (by decide))
      (by decide) (by decide) (by decide) (by decide)
      (by decide) (by decide) (by decide)⟩

/-- Claim C7: the `qualifiedtype` flattening removes every occurrence of
the delimiter `"::"` from its input, and is injective on qualified names
satisfying the data-model invariant (names built from identifier
segments, hence containing no `'$'`): two distinct such names never
flatten to the same output. -/
theorem qualifiedtype_spec :
    (∀ n : String, goContains (qualifiedtype n).data "::".data = false)
    ∧ ∀ n1 n2 : String, '$' ∉ n1.data → '$' ∉ n2.data →
        qualifiedtype n1 = qualifiedtype n2 → n1 = n2 := by
  constructor
  · intro n
    exact goContains_no_double_colon n.data (-1) (by norm_num)
  · intro n1 n2 h1 h2 heq
    have e1 := unflatten_goReplaceColons n1.data (-1) (by norm_num) h1
    have e2 := unflatten_goReplaceColons n2.data (-1) (by norm_num) h2
    have hdata : n1.data = n2.data := by
      rw [← e1, ← e2]
      exact congrArg (fun q => unflatten q.data) heq
    exact congrArg String.mk hdata

/-- Witness for `qualifiedtype_spec`: the flattened form of
`"pkg::Bar::A"` contains no delimiter, and injectivity applied at a
concrete `'$'`-free name. -/
theorem qualifiedtype_spec_witness :
    goContains (qualifiedtype "pkg::Bar::A").data "::".data = false
    ∧ ('$' ∉ "pkg::Foo".data ∧ ("pkg::Foo" : String) = "pkg::Foo") :=
  ⟨qualifiedtype_spec.1 "pkg::Bar::A",
    by decide,
    qualifiedtype_spec.2 "pkg::Foo" "pkg::Foo" (by decide) (by decide) rfl⟩

/-- Claim C1, evaluated at the failing input: `createJavaCodeGenerator`
drops the section id it is invoked with and always executes the fixed
template section `"CppStructReader"`, so the `EditJava` loop — which
invokes it with `"Struct"` for `pkg::Foo` and `"Enum"` for `pkg::Bar` —
never gets the section matching the Definition's variant executed; the
JavaScript generator, by contrast, executes exactly the section id it is
invoked with. -/
theorem createJavaCodeGenerator_ignores_section :
    (createJavaCodeGenerator "Enum" (some (.enumDef exBarEnum))).templateId
        = "CppStructReader"
    ∧ (createJavaCodeGenerator "Struct" (some (.structDef exFooStruct))).templateId
        = "CppStructReader"
    ∧ (editJavaCalls [.structDef exFooStruct, .enumDef exBarEnum]).map RenderCall.templateId
        = ["CppStructReader", "CppStructReader"]
    ∧ ("CppStructReader" : String) ≠ "Struct"
    ∧ ("CppStructReader" : String) ≠ "Enum"
    ∧ (createJsCodeGenerator "JsEnum" (some (.enumDef exBarEnum))).templateId = "JsEnum" :=
  ⟨rfl, rfl, rfl, by decide, by decide, rfl⟩

lemma jsBindingsBody_eq (defs : List TypeDefinition) :
    jsBindingsBody defs = (defs.filter (·.isStruct)).map
      (fun d => createJsCodeGenerator "JsBindingsStruct" (some d)) := by
  induction defs with
  | nil => rfl
  | cons d rest ih =>
    cases d with
    | structDef s => simp [jsBindingsBody, List.filter_cons, TypeDefinition.isStruct, ih]
    | enumDef e => simp [jsBindingsBody, List.filter_cons, TypeDefinition.isStruct, ih]

lemma jsEnumsBody_eq (defs : List TypeDefinition) :
    jsEnumsBody defs = (defs.filter (·.isEnum)).map
      (fun d => createJsCodeGenerator "JsEnum" (some d)) := by
  induction defs with
  | nil => rfl
  | cons d rest ih =>
    cases d with
    | structDef s => simp [jsEnumsBody, List.filter_cons, TypeDefinition.isEnum, ih]
    | enumDef e => simp [jsEnumsBody, List.filter_cons, TypeDefinition.isEnum, ih]

lemma jsExtensionsBody_eq (defs : List TypeDefinition) :
    jsExtensionsBody defs = (defs.filter (·.isStruct)).map
      (fun d => createJsCodeGenerator "JsExtension" (some d)) := by
  induction defs with
  | nil => rfl
  | cons d rest ih =>
    cases d with
    | structDef s => simp [jsExtensionsBody, List.filter_cons, TypeDefinition.isStruct, ih]
    | enumDef e => simp [jsExtensionsBody, List.filter_cons, TypeDefinition.isStruct, ih]

/-- Claim C8: every `EmitJavaScript` artifact emits its per-Definition
sections in exactly Type-Model order (`List.filter` preserves the input
order) and applies only the kinds mapped for the artifact — one
`"JsBindingsStruct"` call per Struct definition and none for Enums in the
struct-binding file, one `"JsEnum"` call per Enum definition and none for
Structs in the enum-binding file, one `"JsExtension"` call per Struct in
the extensions file — each bracketed by its Header section first and its
Footer section last. -/
theorem emitJavaScript_order (defs : List TypeDefinition) :
    emitJsBindings defs =
      createJsCodeGenerator "JsBindingsHeader" none
        :: (defs.filter (·.isStruct)).map
            (fun d => createJsCodeGenerator "JsBindingsStruct" (some d))
        ++ [createJsCodeGenerator "JsBindingsFooter" none]
    ∧ emitJsEnums defs =
      createJsCodeGenerator "JsEnumsHeader" none
        :: (defs.filter (·.isEnum)).map
            (fun d => createJsCodeGenerator "JsEnum" (some d))
        ++ [createJsCodeGenerator "JsEnumsFooter" none]
    ∧ emitJsExtensions defs =
      createJsCodeGenerator "JsExtensionsHeader" none
        :: (defs.filter (·.isStruct)).map
            (fun d => createJsCodeGenerator "JsExtension" (some d))
        ++ [createJsCodeGenerator "JsExtensionsFooter" none] := by
  refine ⟨?_, ?_, ?_⟩
  · rw [emitJsBindings, jsBindingsBody_eq]
  · rw [emitJsEnums, jsEnumsBody_eq]
  · rw [emitJsExtensions, jsExtensionsBody_eq]

/-! ## Lemmas: line scanning and marker collection -/

lemma dropCR_eq_self (l : List Char) (h : '\r' ∉ l) : dropCR l = l := by
  unfold dropCR
  rw [if_neg]
  intro hlast
  exact h (List.mem_of_mem_getLast? hlast)

lemma scanLinesAux_line (l : List Char) : ∀ acc tail, '\n' ∉ l →
    scanLinesAux acc (l ++ '\n' :: tail) =
      dropCR (acc ++ l) :: (if tail.isEmpty then [] else scanLinesAux [] tail) := by
  induction l with
  | nil =>
    intro acc tail h
    simp [scanLinesAux]
  | cons c l ih =>
    intro acc tail h
    have hc : c ≠ '\n' := fun hh => h (hh ▸ List.mem_cons_self c l)
    have h' : '\n' ∉ l := fun hh => h (List.mem_cons_of_mem c hh)
    rw [List.cons_append]
    show scanLinesAux acc (c :: (l ++ '\n' :: tail)) = _
    rw [scanLinesAux, if_neg hc, ih (acc ++ [c]) tail h', List.append_assoc]
    rfl

lemma scanLinesAux_no_lf (s : List Char) : ∀ acc, '\n' ∉ acc →
    ∀ l ∈ scanLinesAux acc s, '\n' ∉ l := by
  induction s with
  | nil =>
    intro acc hacc l hl
    rw [scanLinesAux] at hl
    rw [List.mem_singleton] at hl
    subst hl
    unfold dropCR
    split
    · exact fun hm => hacc (List.dropLast_sublist acc |>.subset hm)
    · exact hacc
  | cons c rest ih =>
    intro acc hacc l hl
    by_cases hc : c = '\n'
    · subst hc
      rw [scanLinesAux, if_pos rfl] at hl
      rcases List.mem_cons.mp hl with h | h
      · subst h
        unfold dropCR
        split
        · exact fun hm => hacc (List.dropLast_sublist acc |>.subset hm)
        · exact hacc
      · by_cases hr : rest.isEmpty = true
        · rw [if_pos hr] at h; simp at h
        · rw [if_neg hr] at h
          exact ih [] (by simp) l h
    · rw [scanLinesAux, if_neg hc] at hl
      have hacc' : '\n' ∉ acc ++ [c] := by
        intro hm
        rcases List.mem_append.mp hm with h | h
        · exact hacc h
        · exact hc (List.mem_singleton.mp h).symm
      exact ih (acc ++ [c]) hacc' l hl

lemma scanLines_no_lf (s : List Char) : ∀ l ∈ scanLines s, '\n' ∉ l := by
  unfold scanLines
  split
  · intro l hl; simp at hl
  · exact scanLinesAux_no_lf s [] (by simp)

lemma scanLines_join (pre : List (List Char)) (rest : List Char)
    (hpre : ∀ l ∈ pre, '\n' ∉ l ∧ dropCR l = l) (hrest : rest ≠ []) :
    scanLines (joinLF pre ++ rest) = pre ++ scanLines rest := by
  induction pre with
  | nil => simp [joinLF]
  | cons l pre ih =>
    obtain ⟨hlf, hcr⟩ := hpre l (List.mem_cons_self l pre)
    have hpre' : ∀ l' ∈ pre, '\n' ∉ l' ∧ dropCR l' = l' :=
      fun l' hl' => hpre l' (List.mem_cons_of_mem l hl')
    have hjoin : joinLF (l :: pre) ++ rest = l ++ '\n' :: (joinLF pre ++ rest) := by
      simp [joinLF]
    rw [hjoin]
    have hne : l ++ '\n' :: (joinLF pre ++ rest) ≠ [] := by
      intro h
      have := congrArg List.length h
      simp at this
    rw [scanLines, if_neg (by simpa [List.isEmpty_iff] using hne)]
    rw [scanLinesAux_line l [] (joinLF pre ++ rest) hlf]
    have hne2 : (joinLF pre ++ rest).isEmpty = false := by
      rcases rest with _ | ⟨c, t⟩
      · exact absurd rfl hrest
      · simp [List.isEmpty_iff]
    rw [hne2]
    have hIH := ih hpre'
    rw [scanLines, hne2] at hIH
    simp only [Bool.false_eq_true, if_false] at hIH ⊢
    rw [List.nil_append, hcr, hIH]
    rfl

lemma collectCodelines_spec (marker : List Char) (lines : List (List Char)) :
    collectCodelines marker lines =
      (lines.takeWhile (fun l => !(goContains l marker)),
        lines.any (fun l => goContains l marker)) := by
  induction lines with
  | nil => rfl
  | cons l rest ih =>
    by_cases h : goContains l marker = true
    · simp [collectCodelines, h, List.takeWhile_cons, List.any_cons]
    · simp only [Bool.not_eq_true] at h
      simp [collectCodelines, h, List.takeWhile_cons, List.any_cons, ih]

lemma collectCodelines_found (marker : List Char) (pre : List (List Char))
    (m : List Char) (rest : List (List Char))
    (hpre : ∀ l ∈ pre, goContains l marker = false)
    (hm : goContains m marker = true) :
    collectCodelines marker (pre ++ m :: rest) = (pre, true) := by
  induction pre with
  | nil => simp [collectCodelines, hm]
  | cons l pre ih =>
    have hl : goContains l marker = false := hpre l (List.mem_cons_self l pre)
    have hpre' : ∀ l' ∈ pre, goContains l' marker = false :=
      fun l' h => hpre l' (List.mem_cons_of_mem l h)
    rw [List.cons_append]
    simp [collectCodelines, hl, ih hpre']

/-- Claim C2: when no line of the pre-existing file contains the marker
substring, both patchers abort fatally (`log.Fatal`, raised before
`os.Create` would truncate the file, so the file's bytes are untouched
and no partial write occurs). -/
theorem edit_missing_marker_fatal (render : String → Option TypeDefinition → List Char)
    (marker : List Char) (defs : List TypeDefinition) (content : List Char)
    (h : ∀ l ∈ scanLines content, goContains l marker = false) :
    EditTypeScript render marker defs content =
      .error "Unable to find marker line in TypeScript file."
    ∧ EditJava render marker defs content =
      .error "Unable to find marker line in Java file." := by
  have hany : (scanLines content).any (fun l => goContains l marker) = false := by
    rw [List.any_eq_false]
    intro l hl
    simp [h l hl]
  constructor
  · simp [EditTypeScript, collectCodelines_spec, hany]
  · simp [EditJava, collectCodelines_spec, hany]

/-- Witness for `edit_missing_marker_fatal`: a two-line hand-written file
with no marker line makes both patchers fail fatally. -/
theorem edit_missing_marker_fatal_witness :
    (∀ l ∈ scanLines "// hand\ncode\n".data, goContains l "<<MARKER>>".data = false)
    ∧ EditTypeScript (fun _ _ => []) "<<MARKER>>".data [] "// hand\ncode\n".data =
        .error "Unable to find marker line in TypeScript file."
    ∧ EditJava (fun _ _ => []) "<<MARKER>>".data [] "// hand\ncode\n".data =
        .error "Unable to find marker line in Java file." :=
  ⟨by decide,
    edit_missing_marker_fatal (fun _ _ => []) "<<MARKER>>".data [] "// hand\ncode\n".data
      (by decide)⟩

/-- Claim C10: with more than one marker-containing line in the
pre-existing file, both patchers succeed without error (uniqueness is
never checked), preserve exactly the lines strictly before the *first*
marker-containing line (marker detection being substring containment
anywhere in the line), and regenerate everything from that line on. -/
theorem edit_multiple_markers (render : String → Option TypeDefinition → List Char)
    (marker : List Char) (defs : List TypeDefinition) (content : List Char)
    (h2 : 2 ≤ ((scanLines content).filter (fun l => goContains l marker)).length) :
    EditTypeScript render marker defs content =
      .ok (joinLF ((scanLines content).takeWhile (fun l => !(goContains l marker)))
        ++ "// ".data ++ marker ++ ['\n'] ++ tsGenerated render defs)
    ∧ EditJava render marker defs content =
      .ok (joinLF ((scanLines content).takeWhile (fun l => !(goContains l marker)))
        ++ "    // ".data ++ marker ++ ['\n'] ++ javaGenerated render defs ++ "\x7d\n".data) := by
  have hany : (scanLines content).any (fun l => goContains l marker) = true := by
    rw [List.any_eq_true]
    have hpos : 0 < ((scanLines content).filter (fun l => goContains l marker)).length := by
      omega
    obtain ⟨l, hl⟩ := List.exists_mem_of_length_pos hpos
    exact ⟨l, (List.mem_filter.mp hl).1, (List.mem_filter.mp hl).2⟩
  constructor
  · simp [EditTypeScript, collectCodelines_spec, hany]
  · simp [EditJava, collectCodelines_spec, hany]

/-- Witness for `edit_multiple_markers`: a seed file with two
marker-containing lines (the second inside ordinary code, no comment
syntax) is patched successfully, keeping only the material above the
first one. -/
theorem edit_multiple_markers_witness :
    2 ≤ ((scanLines "keep\n// <<MARKER>>\nx<<MARKER>>y\n".data).filter
        (fun l => goContains l "<<MARKER>>".data)).length
    ∧ EditTypeScript (fun _ _ => "G".data) "<<MARKER>>".data []
        "keep\n// <<MARKER>>\nx<<MARKER>>y\n".data =
      .ok (joinLF ((scanLines "keep\n// <<MARKER>>\nx<<MARKER>>y\n".data).takeWhile
          (fun l => !(goContains l "<<MARKER>>".data)))
        ++ "// ".data ++ "<<MARKER>>".data ++ ['\n'] ++ tsGenerated (fun _ _ => "G".data) [])
    ∧ EditJava (fun _ _ => "G".data) "<<MARKER>>".data []
        "keep\n// <<MARKER>>\nx<<MARKER>>y\n".data =
      .ok (joinLF ((scanLines "keep\n// <<MARKER>>\nx<<MARKER>>y\n".data).takeWhile
          (fun l => !(goContains l "<<MARKER>>".data)))
        ++ "    // ".data ++ "<<MARKER>>".data ++ ['\n']
        ++ javaGenerated (fun _ _ => "G".data) [] ++ "\x7d\n".data) :=
  ⟨by decide,
    edit_multiple_markers (fun _ _ => "G".data) "<<MARKER>>".data []
      "keep\n// <<MARKER>>\nx<<MARKER>>y\n".data (by decide)⟩

/-- Counterexample to claim C3 as stated: a CRLF-terminated pre-marker
line is not reproduced byte for byte.  For the original file
`"a\r\nM\n"` with marker `"M"`, the bytes strictly before the first
marker-containing line are `"a\r\n"`, but the patcher rewrites the file
so that it begins `"a\n"` — the scanner dropped the `'\r'`. -/
theorem edit_preservation_counterexample :
    EditTypeScript (fun _ _ => []) "M".data [] "a\r\nM\n".data = .ok "a\n// M\n".data
    ∧ "a\r\n".data.isPrefixOf "a\n// M\n".data = false := by
  constructor
  · rfl
  · decide

/-- Claim C3, amended: for a pre-existing file whose lines strictly before
the first marker-containing line are LF-terminated and do not end in a
carriage return (CRLF terminators are normalized to LF by the scanner, as
the counterexample shows), every byte strictly before the first
marker-containing line — terminators included — is reproduced exactly,
byte for byte, at the start of the rewritten file; the bytes from the
marker line onward are freshly generated and carry no required relation
to the previous contents. -/
theorem edit_preserves_pre_marker (render : String → Option TypeDefinition → List Char)
    (marker : List Char) (defs : List TypeDefinition)
    (pre : List (List Char)) (mline rest : List Char)
    (hpre : ∀ l ∈ pre, '\n' ∉ l ∧ dropCR l = l ∧ goContains l marker = false)
    (hm : '\n' ∉ mline) (hmark : goContains (dropCR mline) marker = true) :
    (∃ t, EditTypeScript render marker defs (joinLF pre ++ (mline ++ '\n' :: rest)) =
        .ok (joinLF pre ++ t))
    ∧ (∃ t, EditJava render marker defs (joinLF pre ++ (mline ++ '\n' :: rest)) =
        .ok (joinLF pre ++ t)) := by
  have htail : (mline ++ '\n' :: rest) ≠ [] := by
    intro h
    have := congrArg List.length h
    simp at this
  have hscan : scanLines (joinLF pre ++ (mline ++ '\n' :: rest)) =
      pre ++ scanLines (mline ++ '\n' :: rest) :=
    scanLines_join pre _ (fun l hl => ⟨(hpre l hl).1, (hpre l hl).2.1⟩) htail
  have hscan2 : scanLines (mline ++ '\n' :: rest) =
      dropCR mline :: (if rest.isEmpty then [] else scanLinesAux [] rest) := by
    rw [scanLines, if_neg (by simpa [List.isEmpty_iff] using htail),
      scanLinesAux_line mline [] rest hm, List.nil_append]
  have hcollect : collectCodelines marker
      (scanLines (joinLF pre ++ (mline ++ '\n' :: rest))) = (pre, true) := by
    rw [hscan, hscan2]
    exact collectCodelines_found marker pre _ _ (fun l hl => (hpre l hl).2.2) hmark
  constructor
  · exact ⟨"// ".data ++ marker ++ ['\n'] ++ tsGenerated render defs,
      by simp [EditTypeScript, hcollect, List.append_assoc]⟩
  · exact ⟨"    // ".data ++ marker ++ ['\n'] ++ javaGenerated render defs ++ "\x7d\n".data,
      by simp [EditJava, hcollect, List.append_assoc]⟩

/-- Witness for `edit_preserves_pre_marker`: the spec's scenario seed
`"// keep\n// <<MARKER>>\n"` — the preserved region is exactly
`"// keep\n"`. -/
theorem edit_preserves_pre_marker_witness :
    ((∀ l ∈ [("// keep".data : List Char)],
        '\n' ∉ l ∧ dropCR l = l ∧ goContains l "<<MARKER>>".data = false)
      ∧ '\n' ∉ "// <<MARKER>>".data
      ∧ goContains (dropCR "// <<MARKER>>".data) "<<MARKER>>".data = true)
    ∧ ((∃ t, EditTypeScript (fun _ _ => "G".data) "<<MARKER>>".data []
          (joinLF ["// keep".data] ++ ("// <<MARKER>>".data ++ '\n' :: [])) =
        .ok (joinLF ["// keep".data] ++ t))
      ∧ (∃ t, EditJava (fun _ _ => "G".data) "<<MARKER>>".data []
          (joinLF ["// keep".data] ++ ("// <<MARKER>>".data ++ '\n' :: [])) =
        .ok (joinLF ["// keep".data] ++ t))) :=
  ⟨⟨by decide, by decide, by decide⟩,
    edit_preserves_pre_marker (fun _ _ => "G".data) "<<MARKER>>".data []
      ["// keep".data] "// <<MARKER>>".data [] (by decide) (by decide) (by decide)⟩

/-- Counterexample to claim C4 as stated: the patch is not idempotent on
every seed file.  Seed `"ab\r\r\nM\n"` (marker `"M"`): the first run
preserves the scanned line `"ab\r"` (one `'\r'` dropped) and writes
`"ab\r\n// M\n"`; the second run scans that line as `"ab"` (another
`'\r'` dropped) and writes `"ab\n// M\n"`, which differs from the first
run's output. -/
theorem edit_idempotent_counterexample :
    EditTypeScript (fun _ _ => []) "M".data [] "ab\r\r\nM\n".data = .ok "ab\r\n// M\n".data
    ∧ EditTypeScript (fun _ _ => []) "M".data [] "ab\r\n// M\n".data = .ok "ab\n// M\n".data
    ∧ "ab\r\n// M\n".data ≠ "ab\n// M\n".data := by
  refine ⟨rfl, rfl, by decide⟩

lemma collect_scan_out (marker : List Char) (cs : List (List Char)) (lead g : List Char)
    (hcs : ∀ l ∈ cs, '\n' ∉ l ∧ dropCR l = l ∧ goContains l marker = false)
    (hlf : '\n' ∉ lead) (hml : '\n' ∉ marker)
    (hcr : dropCR (lead ++ marker) = lead ++ marker) :
    collectCodelines marker
      (scanLines (joinLF cs ++ ((lead ++ marker) ++ '\n' :: g))) = (cs, true) := by
  have htail : (lead ++ marker) ++ '\n' :: g ≠ [] := by
    intro h
    have := congrArg List.length h
    simp at this
  have hlm : '\n' ∉ lead ++ marker := by
    intro hm'
    rcases List.mem_append.mp hm' with h | h
    · exact hlf h
    · exact hml h
  have hscan2 : scanLines ((lead ++ marker) ++ '\n' :: g) =
      (lead ++ marker) :: (if g.isEmpty then [] else scanLinesAux [] g) := by
    rw [scanLines, if_neg (by simpa [List.isEmpty_iff] using htail),
      scanLinesAux_line (lead ++ marker) [] g hlm, List.nil_append, hcr]
  have hcontains : goContains (lead ++ marker) marker = true := by
    have := goContains_append lead marker []
    simpa using this
  rw [scanLines_join cs _ (fun l hl => ⟨(hcs l hl).1, (hcs l hl).2.1⟩) htail, hscan2]
  exact collectCodelines_found marker cs _ _ (fun l hl => (hcs l hl).2.2) hcontains

lemma EditTypeScript_ok (render : String → Option TypeDefinition → List Char)
    (marker : List Char) (defs : List TypeDefinition) (content : List Char)
    (cs : List (List Char))
    (h : collectCodelines marker (scanLines content) = (cs, true)) :
    EditTypeScript render marker defs content =
      .ok (joinLF cs ++ "// ".data ++ marker ++ ['\n'] ++ tsGenerated render defs) := by
  simp [EditTypeScript, h]

lemma EditJava_ok (render : String → Option TypeDefinition → List Char)
    (marker : List Char) (defs : List TypeDefinition) (content : List Char)
    (cs : List (List Char))
    (h : collectCodelines marker (scanLines content) = (cs, true)) :
    EditJava render marker defs content =
      .ok (joinLF cs ++ "    // ".data ++ marker ++ ['\n']
        ++ javaGenerated render defs ++ "\x7d\n".data) := by
  simp [EditJava, h]

/-- Claim C4, amended: the patch is idempotent provided the marker
contains no CR/LF byte and no preserved pre-marker line of the seed file
ends in a carriage return (the counterexample shows a line whose raw
bytes end `"\r\r\n"` keeps losing one `'\r'` per run): under those
conditions running either patcher a second time, with the same Type
Model, namespace and rendering, on the first run's output reproduces
that output byte-identically. -/
theorem edit_idempotent (render : String → Option TypeDefinition → List Char)
    (marker : List Char) (defs : List TypeDefinition) (seed : List Char)
    (hmr : '\r' ∉ marker) (hml : '\n' ∉ marker)
    (hfound : (scanLines seed).any (fun l => goContains l marker) = true)
    (hpre : ∀ l ∈ (scanLines seed).takeWhile (fun l => !(goContains l marker)),
      dropCR l = l) :
    (∃ o, EditTypeScript render marker defs seed = .ok o
      ∧ EditTypeScript render marker defs o = .ok o)
    ∧ (∃ o, EditJava render marker defs seed = .ok o
      ∧ EditJava render marker defs o = .ok o) := by
  have hcs : ∀ l ∈ (scanLines seed).takeWhile (fun l => !(goContains l marker)),
      '\n' ∉ l ∧ dropCR l = l ∧ goContains l marker = false := by
    intro l hl
    have hmem : l ∈ scanLines seed := (List.takeWhile_sublist _).subset hl
    refine ⟨scanLines_no_lf seed l hmem, hpre l hl, ?_⟩
    have := List.mem_takeWhile_imp hl
    simpa using this
  constructor
  · have hcr : dropCR ("// ".data ++ marker) = "// ".data ++ marker := by
      apply dropCR_eq_self
      intro hm'
      rcases List.mem_append.mp hm' with h | h
      · revert h; decide
      · exact hmr h
    have hco := collect_scan_out marker
      ((scanLines seed).takeWhile (fun l => !(goContains l marker)))
      "// ".data (tsGenerated render defs) hcs (by decide) hml hcr
    refine ⟨joinLF ((scanLines seed).takeWhile (fun l => !(goContains l marker)))
      ++ "// ".data ++ marker ++ ['\n'] ++ tsGenerated render defs, ?_, ?_⟩
    · simp [EditTypeScript, collectCodelines_spec, hfound]
    · have harg : joinLF ((scanLines seed).takeWhile (fun l => !(goContains l marker)))
          ++ "// ".data ++ marker ++ ['\n'] ++ tsGenerated render defs =
          joinLF ((scanLines seed).takeWhile (fun l => !(goContains l marker)))
          ++ (("// ".data ++ marker) ++ '\n' :: tsGenerated render defs) := by
        simp [List.append_assoc]
      rw [harg, EditTypeScript_ok render marker defs _ _ hco, harg]
  · have hcr : dropCR ("    // ".data ++ marker) = "    // ".data ++ marker := by
      apply dropCR_eq_self
      intro hm'
      rcases List.mem_append.mp hm' with h | h
      · revert h; decide
      · exact hmr h
    have hco := collect_scan_out marker
      ((scanLines seed).takeWhile (fun l => !(goContains l marker)))
      "    // ".data (javaGenerated render defs ++ "\x7d\n".data) hcs (by decide) hml hcr
    refine ⟨joinLF ((scanLines seed).takeWhile (fun l => !(goContains l marker)))
      ++ "    // ".data ++ marker ++ ['\n'] ++ javaGenerated render defs ++ "\x7d\n".data, ?_, ?_⟩
    · simp [EditJava, collectCodelines_spec, hfound]
    · have harg : joinLF ((scanLines seed).takeWhile (fun l => !(goContains l marker)))
          ++ "    // ".data ++ marker ++ ['\n'] ++ javaGenerated render defs ++ "\x7d\n".data =
          joinLF ((scanLines seed).takeWhile (fun l => !(goContains l marker)))
          ++ (("    // ".data ++ marker) ++ '\n'
            :: (javaGenerated render defs ++ "\x7d\n".data)) := by
        simp [List.append_assoc]
      rw [harg, EditJava_ok render marker defs _ _ hco, harg]

/-- Witness for `edit_idempotent`: the spec's scenario seed
`"// keep\n// <<MARKER>>\n"` is patched twice with identical output. -/
theorem edit_idempotent_witness :
    ('\r' ∉ "<<MARKER>>".data ∧ '\n' ∉ "<<MARKER>>".data
      ∧ (scanLines "// keep\n// <<MARKER>>\n".data).any
          (fun l => goContains l "<<MARKER>>".data) = true
      ∧ ∀ l ∈ (scanLines "// keep\n// <<MARKER>>\n".data).takeWhile
          (fun l => !(goContains l "<<MARKER>>".data)), dropCR l = l)
    ∧ ((∃ o, EditTypeScript (fun _ _ => "G".data) "<<MARKER>>".data []
          "// keep\n// <<MARKER>>\n".data = .ok o
        ∧ EditTypeScript (fun _ _ => "G".data) "<<MARKER>>".data [] o = .ok o)
      ∧ (∃ o, EditJava (fun _ _ => "G".data) "<<MARKER>>".data []
          "// keep\n// <<MARKER>>\n".data = .ok o
        ∧ EditJava (fun _ _ => "G".data) "<<MARKER>>".data [] o = .ok o)) :=
  ⟨⟨by decide, by decide, by decide, by decide⟩,
    edit_idempotent (fun _ _ => "G".data) "<<MARKER>>".data []
      "// keep\n// <<MARKER>>\n".data (by decide) (by decide) (by decide) (by decide)⟩
